import Mathlib

/-!
# Verification of the chromey hybrid HTTP cache core

This file gives a shallow embedding, in Lean 4, of the caching and
synchronization core of the `spider-rs/chromey` repository:

* `src/cache.rs` — cache-key derivation (`create_cache_key_raw`), the cached
  read path (`get_cached_url`), the streaming base-tag rewriter
  (`rewrite_base_tag`), header conversion (`convert_headers`) and the hybrid
  write path (`put_hybrid_cache`);
* `src/cache/dump_remote.rs` — the remote dump worker loop (`init_inner`);
* `src/cache/remote.rs` — the push/pull wire client (`dump_to_remote_cache`,
  `get_cache_site`, `seed_payload_into_local_cache`).

External collaborators (the `http`/`reqwest` parsers, the opaque cacache
store, the `lol_html` tokenizer, the `base64` engine, `url::Url`,
`auto_encoder`) are modelled at their interfaces: parsers become explicit
`String → Option String` parameters, the store becomes an explicit lookup
result, the tokenizer becomes a stream of parse events whose handler logic is
translated line by line from the Rust closures, and the base64 STANDARD
engine is implemented in full (RFC 4648 with padding and canonical
trailing-bit checks, matching `general_purpose::STANDARD`).

All definitions are executable; theorems about the repository's behaviour
follow the definitions.
-/

namespace Chromey

/-! ## Cache key derivation (`src/cache.rs`, `create_cache_key_raw`) -/

/--
Model of `create_cache_key_raw` (src/cache.rs lines 32-51):

```rust
if let Some(authentication) = auth {
    format!("{}:{}:{}", override_method.unwrap_or_else(|| "GET".into()), uri, authentication)
} else {
    format!("{}:{}", override_method.unwrap_or_else(|| "GET".into()), uri)
}
```
-/
def create_cache_key_raw (uri : String) (override_method : Option String)
    (auth : Option String) : String :=
  match auth with
  | some authentication =>
      override_method.getD "GET" ++ ":" ++ uri ++ ":" ++ authentication
  | none =>
      override_method.getD "GET" ++ ":" ++ uri

/-- The method string actually used by `create_cache_key_raw`
(`override_method.unwrap_or_else(|| "GET".into())`). -/
def defaultedMethod (override_method : Option String) : String :=
  override_method.getD "GET"

/-! ## Data model (`src/cache.rs`) -/

/-- Model of the `HttpVersion` enum (src/cache.rs lines 197-210). -/
inductive HttpVersion where
  | Http09
  | Http10
  | Http11
  | H2
  | H3
  deriving Repr, DecidableEq

/-- Model of `url::Url` (external crate), reduced to the two observations the
repository makes of it: `as_str()` / `to_string()` and `host_str()`. -/
structure Url where
  urlString : String
  host : Option String
  deriving Repr, DecidableEq

/-- Model of the `HttpResponse` struct (src/cache.rs lines 213-225); the body
is a byte sequence (each entry `< 256`), headers an ordered map snapshot. -/
structure HttpResponse where
  body : List Nat
  headers : List (String × String)
  status : Nat
  url : Url
  version : HttpVersion
  deriving Repr, DecidableEq

/-- Model of `http_cache_semantics::CachePolicy` as observed by the read path
(`get_cached_url`): the only operation used there is `is_stale(now)`, so the
external policy is abstracted to its staleness predicate over a wall-clock
instant. -/
structure CachePolicy where
  is_stale : Nat → Bool

/-! ## Cached read path (`src/cache.rs`, `get_cached_url`) -/

/--
Model of `get_cached_url` (src/cache.rs lines 54-70). The store interaction
`tokio::time::timeout(60ms, CACACHE_MANAGER.get(&cache_url))` is abstracted
as an explicit `store` function from the derived key to the outcome:
`none` models the timeout (`Err(Elapsed)`), `some (.error e)` a store error,
`some (.ok none)` a store miss, `some (.ok (some (resp, policy)))` a hit.

```rust
let cache_url = create_cache_key_raw(target_url, None, auth_opt.as_deref());
let result = timeout(60ms, CACACHE_MANAGER.get(&cache_url)).await;
if let Ok(cached) = result {
    if let Ok(Some((http_response, cache_policy))) = cached {
        if !cache_policy.is_stale(SystemTime::now()) {
            return Some(http_response.body);
        }
    }
}
None
```
-/
def get_cached_url
    (store : String → Option (Except String (Option (HttpResponse × CachePolicy))))
    (target_url : String) (auth_opt : Option String) (now : Nat) :
    Option (List Nat) :=
  let cache_url := create_cache_key_raw target_url none auth_opt
  match store cache_url with
  | some (Except.ok (some (http_response, cache_policy))) =>
      if !(cache_policy.is_stale now) then some http_response.body else none
  | _ => none

/-! ## Header conversion (`src/cache.rs`, `convert_headers`)

The external parsers `reqwest::header::HeaderValue::from_str` and
`reqwest::header::HeaderName::from_str` are abstracted as explicit
`String → Option String` parameters (`none` = malformed, `some s` = the
parsed name/value); `reqwest::header::HeaderMap::insert` replaces any
existing entry for the key. -/

/-- Model of `HeaderMap::insert` (external crate): replace the entry for
`k` when present, otherwise append. -/
def insertHeader (m : List (String × String)) (k v : String) :
    List (String × String) :=
  if m.any (fun p => p.1 == k) then
    m.map (fun p => if p.1 == k then (k, v) else p)
  else
    m ++ [(k, v)]

/--
Loop of `convert_headers` (src/cache.rs lines 275-286), one iteration per
entry in iteration order:

```rust
for (index, items) in headers.iter().enumerate() {
    if let Ok(head) = reqwest::header::HeaderValue::from_str(items.1) {
        if let Ok(key) = reqwest::header::HeaderName::from_str(items.0) {
            header_map.insert(key, head);
        }
    }
    // mal headers
    if index > 1000 {
        break;
    }
}
```
-/
def convertHeadersGo (pn pv : String → Option String) :
    Nat → List (String × String) → List (String × String) →
    List (String × String)
  | _, [], header_map => header_map
  | index, (k, v) :: rest, header_map =>
      let header_map' :=
        match pv v with
        | some head =>
            match pn k with
            | some key => insertHeader header_map key head
            | none => header_map
        | none => header_map
      if index > 1000 then header_map'
      else convertHeadersGo pn pv (index + 1) rest header_map'

/-- Model of `convert_headers` (src/cache.rs lines 270-289), parameterized by
the external header-name/value parsers; the input list order models the
`HashMap` iteration order. -/
def convert_headers (pn pv : String → Option String)
    (headers : List (String × String)) : List (String × String) :=
  convertHeadersGo pn pv 0 headers []

/-- The same loop without the `index > 1000` break. -/
def convertHeadersFold (pn pv : String → Option String)
    (headers : List (String × String)) (header_map : List (String × String)) :
    List (String × String) :=
  headers.foldl
    (fun m p =>
      match pv p.2 with
      | some head =>
          match pn p.1 with
          | some key => insertHeader m key head
          | none => m
      | none => m)
    header_map

/-- The `i`-th distinct header name used by `bigHeaderList`. -/
def natKey (i : Nat) : String :=
  String.mk (List.replicate i 'a')

/-- A large header map whose entries are all well-formed. -/
def bigHeaderList : List (String × String) :=
  (List.range 1003).map (fun i => (natKey i, "v"))

/-! ## Hybrid write path (`src/cache.rs`, `put_hybrid_cache`) -/

/-- Model of the `HttpRequestLike` struct (src/cache.rs lines 228-235); the
external `http::uri::Uri` and `reqwest::Method` are carried as strings. -/
structure HttpRequestLike where
  uri : String
  method : String
  headers : List (String × String)
  deriving Repr, DecidableEq

/-- Model of the `HttpResponseLike` struct (src/cache.rs lines 238-243). -/
structure HttpResponseLike where
  status : Nat
  headers : List (String × String)
  deriving Repr, DecidableEq

/-- Model of `http_cache_semantics::CachePolicy::new(&req, &res)` (external
crate): the policy computation itself is opaque, so the model records the
synthetic request/response pair the policy is computed from. -/
structure CachePolicyPair where
  request : HttpRequestLike
  response : HttpResponseLike
  deriving Repr, DecidableEq

/-- `CachePolicy::new` as used by `put_hybrid_cache`. -/
def cachePolicyNew (req : HttpRequestLike) (res : HttpResponseLike) :
    CachePolicyPair :=
  { request := req, response := res }

/-- The version mapping of src/cache.rs lines 325-331 (each `HttpVersion`
variant to the same-named `http_cache::HttpVersion` variant). -/
def toCacheHttpVersion : HttpVersion → HttpVersion
  | HttpVersion.H2 => HttpVersion.H2
  | HttpVersion.Http10 => HttpVersion.Http10
  | HttpVersion.H3 => HttpVersion.H3
  | HttpVersion.Http09 => HttpVersion.Http09
  | HttpVersion.Http11 => HttpVersion.Http11

/-- The store write issued by `put_hybrid_cache`: key, stored response and
the policy (as the pair it was computed from). -/
structure PutEntry where
  key : String
  response : HttpResponse
  policy : CachePolicyPair
  deriving Repr, DecidableEq

/-- `StatusCode::from_u16(status).unwrap_or(StatusCode::EXPECTATION_FAILED)`:
the `http` crate accepts exactly the range `[100, 1000)`; anything else
falls back to 417. -/
def statusOr417 (status : Nat) : Nat :=
  if 100 ≤ status ∧ status < 1000 then status else 417

/--
Model of `put_hybrid_cache` (src/cache.rs lines 292-340), parameterized by
the external parsers: `pu` models `str::parse::<http::uri::Uri>` (`none` =
parse failure, in which case nothing is written), `pm` models
`Method::from_bytes` (`unwrap_or(GET)` is the `getD "GET"`), and `pn`/`pv`
are the header parsers of `convert_headers`. Returns the store write, or
`none` when the URL fails to re-parse as a URI.

```rust
let req = HttpRequestLike {
    uri: u,
    method: Method::from_bytes(method.as_bytes()).unwrap_or(Method::GET),
    headers: convert_headers(&http_response.headers),
};
let res = HttpResponseLike {
    status: StatusCode::from_u16(http_response.status).unwrap_or(EXPECTATION_FAILED),
    headers: convert_headers(&http_request_headers),
};
let policy = CachePolicy::new(&req, &res);
let _ = CACACHE_MANAGER.put(cache_key.into(), HttpResponse { .. }, policy).await;
```
-/
def put_hybrid_cache (pu pm pn pv : String → Option String)
    (cache_key : String) (http_response : HttpResponse) (method : String)
    (http_request_headers : List (String × String)) : Option PutEntry :=
  match pu http_response.url.urlString with
  | some u =>
      let req : HttpRequestLike :=
        { uri := u,
          method := (pm method).getD "GET",
          headers := convert_headers pn pv http_response.headers }
      let res : HttpResponseLike :=
        { status := statusOr417 http_response.status,
          headers := convert_headers pn pv http_request_headers }
      let policy := cachePolicyNew req res
      some
        { key := cache_key,
          response :=
            { url := http_response.url,
              body := http_response.body,
              headers := http_response.headers,
              version := toCacheHttpVersion http_response.version,
              status := http_response.status },
          policy := policy }
  | none => none

/-! ## Remote dump worker (`src/cache/dump_remote.rs`) -/

/-- Model of the `DumpJob` struct (src/cache/dump_remote.rs lines 11-26). -/
structure DumpJob where
  cache_key : String
  cache_site : String
  url : String
  method : String
  status : Nat
  request_headers : List (String × String)
  response_headers : List (String × String)
  body : List Nat
  http_version : HttpVersion
  /-- `None` = default endpoint, `Some "true"` = default endpoint,
  `Some url` = override base URL. -/
  dump_remote : Option String
  deriving Repr, DecidableEq

/--
Model of the worker loop of `init_inner` (src/cache/dump_remote.rs lines
39-57). The loop body is strictly sequential: it receives a job, checks and
inserts its key into the in-flight set, awaits the rate tick, awaits the
(timeout-bounded) push attempt, and removes the key — all before the next
`rx.recv()`. The model consumes the channel's jobs in arrival order and
returns the cache keys for which a push attempt (`dump_job`, possibly timing
out) was made, in order; the in-flight set is a list.

```rust
while let Some(job) = rx.recv().await {
    if !inflight.insert(job.cache_key.clone()) {
        continue;
    }
    tick.tick().await;
    let res = tokio::time::timeout(timeout, dump_job(job.clone())).await;
    if res.is_err() { tracing::warn!(..); }
    inflight.remove(&job.cache_key);
}
```
-/
def init_inner_loop : List DumpJob → List String → List String
  | [], _ => []
  | job :: rest, inflight =>
      if job.cache_key ∈ inflight then
        init_inner_loop rest inflight
      else
        job.cache_key ::
          init_inner_loop rest ((job.cache_key :: inflight).erase job.cache_key)

/-- A `DumpJob` with the given cache key (remaining fields arbitrary but
concrete). -/
def mkJob (k : String) : DumpJob :=
  { cache_key := k, cache_site := "s", url := "https://e.com/", method := "GET",
    status := 200, request_headers := [], response_headers := [], body := [],
    http_version := HttpVersion.Http11, dump_remote := none }

/-! ## Base64 (external `base64` crate, `general_purpose::STANDARD`)

`dump_to_remote_cache` encodes the body with
`general_purpose::STANDARD.encode` and `seed_payload_into_local_cache`
decodes with `general_purpose::STANDARD.decode`. The STANDARD engine is the
RFC 4648 alphabet with `=` padding and canonical decoding (non-zero trailing
bits rejected); it is implemented here in full over byte lists. -/

/-- The RFC 4648 standard-alphabet character of a sextet. -/
def b64EncodeSextet (n : Nat) : Char :=
  if n < 26 then Char.ofNat (65 + n)
  else if n < 52 then Char.ofNat (97 + (n - 26))
  else if n < 62 then Char.ofNat (48 + (n - 52))
  else if n = 62 then '+'
  else '/'

/-- The sextet of a standard-alphabet character (`none` for characters
outside the alphabet, `'='` included). -/
def b64DecodeChar (c : Char) : Option Nat :=
  let n := c.toNat
  if 65 ≤ n ∧ n ≤ 90 then some (n - 65)
  else if 97 ≤ n ∧ n ≤ 122 then some (n - 97 + 26)
  else if 48 ≤ n ∧ n ≤ 57 then some (n - 48 + 52)
  else if n = 43 then some 62
  else if n = 47 then some 63
  else none

/-- Base64 encoding with padding, three input bytes per four output
characters. -/
def base64EncodeChars : List Nat → List Char
  | [] => []
  | [a] =>
      [b64EncodeSextet (a / 4), b64EncodeSextet (a % 4 * 16), '=', '=']
  | [a, b] =>
      [b64EncodeSextet (a / 4), b64EncodeSextet (a % 4 * 16 + b / 16),
       b64EncodeSextet (b % 16 * 4), '=']
  | a :: b :: c :: rest =>
      b64EncodeSextet (a / 4) :: b64EncodeSextet (a % 4 * 16 + b / 16) ::
      b64EncodeSextet (b % 16 * 4 + c / 64) :: b64EncodeSextet (c % 64) ::
      base64EncodeChars rest

/-- Canonical base64 decoding: input must be a padded multiple of four
characters and trailing bits must be zero (matching
`general_purpose::STANDARD`, which has `decode_allow_trailing_bits = false`
and canonical-padding mode). -/
def base64DecodeChars : List Char → Option (List Nat)
  | [] => some []
  | c0 :: c1 :: c2 :: c3 :: rest =>
      match b64DecodeChar c0, b64DecodeChar c1 with
      | some s0, some s1 =>
          if c2 = '=' then
            if c3 = '=' ∧ rest = [] ∧ s1 % 16 = 0 then
              some [s0 * 4 + s1 / 16]
            else none
          else
            match b64DecodeChar c2 with
            | some s2 =>
                if c3 = '=' then
                  if rest = [] ∧ s2 % 4 = 0 then
                    some [s0 * 4 + s1 / 16, s1 % 16 * 16 + s2 / 4]
                  else none
                else
                  match b64DecodeChar c3 with
                  | some s3 =>
                      (base64DecodeChars rest).map
                        (fun bs => (s0 * 4 + s1 / 16) ::
                          (s1 % 16 * 16 + s2 / 4) :: (s2 % 4 * 64 + s3) :: bs)
                  | none => none
            | none => none
      | _, _ => none
  | _ => none

/-- `general_purpose::STANDARD.encode`. -/
def base64Encode (bytes : List Nat) : String :=
  String.mk (base64EncodeChars bytes)

/-- `general_purpose::STANDARD.decode`. -/
def base64Decode (s : String) : Option (List Nat) :=
  base64DecodeChars s.data

/-! ## Remote sync client (`src/cache/remote.rs`) -/

/-- Model of the `HybridCachePayload` wire struct
(src/cache/remote.rs lines 36-48). -/
structure HybridCachePayload where
  website_key : Option String
  resource_key : String
  url : String
  method : String
  status : Nat
  request_headers : List (String × String)
  response_headers : List (String × String)
  body_base64 : String
  deriving Repr, DecidableEq

/-- The payload built by `dump_to_remote_cache`
(src/cache/remote.rs lines 59-72):

```rust
let website_key = http_response.url.host_str().map(|h| h.to_string());
let body_base64 = general_purpose::STANDARD.encode(&http_response.body);
let payload = HybridCachePayload { website_key, resource_key: cache_key.to_string(),
    url: http_response.url.to_string(), method: method.to_string(),
    status: http_response.status, request_headers: http_request_headers.clone(),
    response_headers: http_response.headers.clone(), body_base64 };
```
-/
def dumpPayload (cache_key : String) (http_response : HttpResponse)
    (method : String) (http_request_headers : List (String × String)) :
    HybridCachePayload :=
  { website_key := http_response.url.host,
    resource_key := cache_key,
    url := http_response.url.urlString,
    method := method,
    status := http_response.status,
    request_headers := http_request_headers,
    response_headers := http_response.headers,
    body_base64 := base64Encode http_response.body }

/-- The body-decoding step of `seed_payload_into_local_cache`
(src/cache/remote.rs lines 195-197):

```rust
let body = general_purpose::STANDARD
    .decode(&payload.body_base64)
    .map_err(|e| format!("invalid base64 body for {}: {e}", payload.resource_key))?;
```
-/
def seedDecodeBody (payload : HybridCachePayload) : Except String (List Nat) :=
  match base64Decode payload.body_base64 with
  | some body => Except.ok body
  | none => Except.error ("invalid base64 body for " ++ payload.resource_key)

/-! ### Endpoint resolution (push and pull) -/

/-- `u8::is_ascii_whitespace`: space, tab, line feed, form feed, carriage
return. -/
def isAsciiWhitespaceByte (c : Char) : Bool :=
  c = ' ' || c = '\t' || c = '\n' || c = '\x0C' || c = '\r'

/-- Model of `str::trim_ascii` (leading and trailing ASCII whitespace
removed). -/
def trim_ascii (s : String) : String :=
  String.mk
    (((s.data.dropWhile isAsciiWhitespaceByte).reverse.dropWhile
        isAsciiWhitespaceByte).reverse)

/-- The default remote endpoint (`HYBRID_CACHE_ENDPOINT` without the env
override, src/cache/remote.rs lines 28-29). -/
def HYBRID_CACHE_ENDPOINT_default : String :=
  "http://127.0.0.1:8080"

/-- Base-URL resolution of `dump_to_remote_cache`
(src/cache/remote.rs lines 74-80):

```rust
let mut base_url = HYBRID_CACHE_ENDPOINT.as_str();
if let Some(remote) = dump_remote {
    if remote != "true" {
        base_url = remote.trim_ascii();
    }
}
```
-/
def dump_to_remote_cache_base (endpoint : String) (dump_remote : Option String) :
    String :=
  match dump_remote with
  | some remote => if remote ≠ "true" then trim_ascii remote else endpoint
  | none => endpoint

/-- Base-URL resolution of `get_cache_site`
(src/cache/remote.rs lines 121-128, the same logic duplicated). -/
def get_cache_site_base (endpoint : String) (remote : Option String) : String :=
  match remote with
  | some r => if r ≠ "true" then trim_ascii r else endpoint
  | none => endpoint

/-- The POST target of `dump_to_remote_cache`
(`format!("{}/cache/index", base_url)`). -/
def dump_to_remote_cache_endpoint (endpoint : String)
    (dump_remote : Option String) : String :=
  dump_to_remote_cache_base endpoint dump_remote ++ "/cache/index"

/-- The GET target of `get_cache_site`
(`format!("{}/cache/site/{}", base_url, cache_key)` with
`cache_key = create_cache_key_raw(target_url, None, auth)`). -/
def get_cache_site_endpoint (endpoint : String) (target_url : String)
    (auth : Option String) (remote : Option String) : String :=
  get_cache_site_base endpoint remote ++ "/cache/site/"
    ++ create_cache_key_raw target_url none auth

/-! ## Base-tag rewriter (`src/cache.rs`, `rewrite_base_tag`)

The external `lol_html` tokenizer is abstracted as a stream of parse events,
delivered in chunks (the driver feeds the html to the rewriter in
`STREAMING_CHUNK_SIZE` slices; each slice yields the events of the markup it
contains). The three element handlers registered by `rewrite_base_tag`
(src/cache.rs lines 88-154) are translated clause by clause; everything not
matched by a handler is passed through to the output sink unchanged. The
`OnceLock` flags `base_tag_inserted` and `already_present` become two
booleans (set-once is modelled by the guards, exactly as in the closures).
The source closures always return `Ok(())`, so the `wrote_error` path of the
driver can only be triggered inside the external tokenizer and is not
modelled. -/

/-- A parse event delivered by the tokenizer, carrying the source text of
the markup it covers. `headEnd`/`htmlEnd` are the firings of the end-tag
handlers registered on a `<head>`/`<html>` start tag. -/
inductive HtmlEvent where
  | baseTag (href : Option String) (text : String)
  | headEnd (text : String)
  | htmlEnd (text : String)
  | other (text : String)
  deriving Repr, DecidableEq

/-- A piece of rewriter output: markup copied from the source document, or
markup inserted via `end.before(...)`. -/
inductive OutputPiece where
  | src (text : String)
  | inserted (text : String)
  deriving Repr, DecidableEq

/-- The text of an output piece. -/
def OutputPiece.text : OutputPiece → String
  | OutputPiece.src t => t
  | OutputPiece.inserted t => t

/-- Whether an output piece was inserted by the rewriter. -/
def OutputPiece.isInserted : OutputPiece → Bool
  | OutputPiece.src _ => false
  | OutputPiece.inserted _ => true

/-- Model of `str::starts_with` (character-prefix test; for UTF-8 text a
character prefix is exactly a byte prefix). -/
def strStartsWith (s p : String) : Bool :=
  p.data.isPrefixOf s.data

/-- Rewriter state: the two `OnceLock` flags and the output buffer. -/
structure RewriterState where
  base_tag_inserted : Bool
  already_present : Bool
  buffer : List OutputPiece
  deriving Repr, DecidableEq

/-- Initial rewriter state (both `OnceLock`s unset, empty buffer). -/
def initRewriterState : RewriterState :=
  { base_tag_inserted := false, already_present := false, buffer := [] }

/-- `format!(r#"<base href="{}">"#, base_url.unwrap_or_default())`
(src/cache.rs lines 119-120). -/
def headBaseFragment (base_url : Option String) : String :=
  "<base href=\"" ++ base_url.getD "" ++ "\">"

/-- `format!(r#"<head><base href="{}"></head>"#, base_url.unwrap_or_default())`
(src/cache.rs lines 138-141). -/
def htmlBaseFragment (base_url : Option String) : String :=
  "<head><base href=\"" ++ base_url.getD "" ++ "\"></head>"

/--
One parse event through the three handlers of `rewrite_base_tag`:

* `base` handler (src/cache.rs lines 90-113): if no insertion has happened
  yet, an `href` beginning with `http://` or `https://` marks both flags and
  the element passes through; a missing or non-absolute `href` removes the
  element (`el.remove()` — nothing emitted); once `base_tag_inserted` is
  set the handler does nothing and the element passes through.
* `head` end-tag handler (lines 115-132): if no insertion has happened yet,
  set the flag and emit `<base href="...">` before the end tag.
* `html` end-tag handler (lines 134-153): same with a synthesized
  `<head><base href="..."></head>` block.
* anything else is copied through by the rewriter.
-/
def stepEvent (base_url : Option String) (st : RewriterState) :
    HtmlEvent → RewriterState
  | HtmlEvent.baseTag href text =>
      if st.base_tag_inserted = false then
        match href with
        | some attr =>
            if strStartsWith attr "http://" || strStartsWith attr "https://" then
              { st with base_tag_inserted := true, already_present := true,
                        buffer := st.buffer ++ [OutputPiece.src text] }
            else
              st
        | none => st
      else
        { st with buffer := st.buffer ++ [OutputPiece.src text] }
  | HtmlEvent.headEnd text =>
      if st.base_tag_inserted = false then
        { st with base_tag_inserted := true,
                  buffer := st.buffer
                    ++ [OutputPiece.inserted (headBaseFragment base_url),
                        OutputPiece.src text] }
      else
        { st with buffer := st.buffer ++ [OutputPiece.src text] }
  | HtmlEvent.htmlEnd text =>
      if st.base_tag_inserted = false then
        { st with base_tag_inserted := true,
                  buffer := st.buffer
                    ++ [OutputPiece.inserted (htmlBaseFragment base_url),
                        OutputPiece.src text] }
      else
        { st with buffer := st.buffer ++ [OutputPiece.src text] }
  | HtmlEvent.other text =>
      { st with buffer := st.buffer ++ [OutputPiece.src text] }

/--
The driver loop of `rewrite_base_tag` (src/cache.rs lines 174-183): before
writing each chunk it checks `already_present` and breaks out ("early
exist"); otherwise the chunk's events go through the handlers.

```rust
while let Some(chunk) = stream.next().await {
    if already_present.get().is_some() { break; }
    if rewriter.write(chunk).is_err() { wrote_error = true; break; }
}
```
-/
def runChunks (base_url : Option String) :
    List (List HtmlEvent) → RewriterState → RewriterState
  | [], st => st
  | chunk :: rest, st =>
      if st.already_present = true then st
      else runChunks base_url rest (chunk.foldl (stepEvent base_url) st)

/-- Concatenated text of the output buffer (the bytes accumulated by the
sink closure `|c| buffer.extend_from_slice(c)`). -/
def outputText (pieces : List OutputPiece) : String :=
  String.join (pieces.map OutputPiece.text)

/-- Number of inserted pieces in the rewriter output. -/
def insertedCount (st : RewriterState) : Nat :=
  (st.buffer.filter OutputPiece.isInserted).length

/-- Modelled from the spec: the external `auto_encoder::auto_encode_bytes`
charset normalization ("never fail on invalid encoding — substitute
replacement characters or fall back to empty string"). The rewriter's own
output buffer is valid text by construction, and on valid UTF-8 the
best-effort normalization is the identity. -/
def auto_encode_bytes (buffer : String) : String :=
  buffer

/-- UTF-8 encoding of one scalar value (used to build concrete byte-level
documents). -/
def utf8EncodeChar (c : Char) : List Nat :=
  let n := c.toNat
  if n < 128 then [n]
  else if n < 2048 then [192 + n / 64, 128 + n % 64]
  else if n < 65536 then [224 + n / 4096, 128 + n / 64 % 64, 128 + n % 64]
  else [240 + n / 262144, 128 + n / 4096 % 64, 128 + n / 64 % 64, 128 + n % 64]

/-- UTF-8 bytes of a string. -/
def strBytes (s : String) : List Nat :=
  s.data.flatMap utf8EncodeChar

/-- Decode one UTF-8 scalar from the front of a byte list, following the
exact validity ranges of Rust's `std::str::from_utf8` (RFC 3629: no overlong
forms, no surrogates, nothing above U+10FFFF). -/
def utf8DecodeOne : List Nat → Option (Char × List Nat)
  | [] => none
  | b :: rest =>
      if b < 128 then some (Char.ofNat b, rest)
      else if 194 ≤ b ∧ b ≤ 223 then
        match rest with
        | c1 :: r =>
            if 128 ≤ c1 ∧ c1 ≤ 191 then
              some (Char.ofNat ((b - 192) * 64 + (c1 - 128)), r)
            else none
        | [] => none
      else if b = 224 then
        match rest with
        | c1 :: c2 :: r =>
            if (160 ≤ c1 ∧ c1 ≤ 191) ∧ (128 ≤ c2 ∧ c2 ≤ 191) then
              some (Char.ofNat ((b - 224) * 4096 + (c1 - 128) * 64 + (c2 - 128)), r)
            else none
        | _ => none
      else if (225 ≤ b ∧ b ≤ 236) ∨ (238 ≤ b ∧ b ≤ 239) then
        match rest with
        | c1 :: c2 :: r =>
            if (128 ≤ c1 ∧ c1 ≤ 191) ∧ (128 ≤ c2 ∧ c2 ≤ 191) then
              some (Char.ofNat ((b - 224) * 4096 + (c1 - 128) * 64 + (c2 - 128)), r)
            else none
        | _ => none
      else if b = 237 then
        match rest with
        | c1 :: c2 :: r =>
            if (128 ≤ c1 ∧ c1 ≤ 159) ∧ (128 ≤ c2 ∧ c2 ≤ 191) then
              some (Char.ofNat ((b - 224) * 4096 + (c1 - 128) * 64 + (c2 - 128)), r)
            else none
        | _ => none
      else if b = 240 then
        match rest with
        | c1 :: c2 :: c3 :: r =>
            if (144 ≤ c1 ∧ c1 ≤ 191) ∧ (128 ≤ c2 ∧ c2 ≤ 191)
                ∧ (128 ≤ c3 ∧ c3 ≤ 191) then
              some (Char.ofNat ((b - 240) * 262144 + (c1 - 128) * 4096
                + (c2 - 128) * 64 + (c3 - 128)), r)
            else none
        | _ => none
      else if 241 ≤ b ∧ b ≤ 243 then
        match rest with
        | c1 :: c2 :: c3 :: r =>
            if (128 ≤ c1 ∧ c1 ≤ 191) ∧ (128 ≤ c2 ∧ c2 ≤ 191)
                ∧ (128 ≤ c3 ∧ c3 ≤ 191) then
              some (Char.ofNat ((b - 240) * 262144 + (c1 - 128) * 4096
                + (c2 - 128) * 64 + (c3 - 128)), r)
            else none
        | _ => none
      else if b = 244 then
        match rest with
        | c1 :: c2 :: c3 :: r =>
            if (128 ≤ c1 ∧ c1 ≤ 143) ∧ (128 ≤ c2 ∧ c2 ≤ 191)
                ∧ (128 ≤ c3 ∧ c3 ≤ 191) then
              some (Char.ofNat ((b - 240) * 262144 + (c1 - 128) * 4096
                + (c2 - 128) * 64 + (c3 - 128)), r)
            else none
        | _ => none
      else none

/-- Fuelled decoding loop (`bytes.length` fuel always suffices since each
scalar consumes at least one byte). -/
def utf8DecodeLoop : Nat → List Nat → Option (List Char)
  | _, [] => some []
  | 0, _ :: _ => none
  | fuel + 1, b :: rest =>
      match utf8DecodeOne (b :: rest) with
      | some (c, r) => (utf8DecodeLoop fuel r).map (fun cs => c :: cs)
      | none => none

/-- `std::str::from_utf8(&html).unwrap_or_default()` (src/cache.rs line
190): strict UTF-8 decoding, falling back to the empty string on invalid
input — total, never failing. -/
def utf8DecodeOrEmpty (bytes : List Nat) : String :=
  match utf8DecodeLoop bytes.length bytes with
  | some cs => String.mk cs
  | none => ""

/--
Model of `rewrite_base_tag` (src/cache.rs lines 73-194): `html` is the raw
input byte sequence, `chunks` the event stream the tokenizer derives from
it (chunked as the driver feeds it).

```rust
if html.is_empty() { return Default::default(); }
... // handlers + driver loop
if already_present.get().is_some() {
    std::str::from_utf8(&html).unwrap_or_default().into()
} else {
    auto_encoder::auto_encode_bytes(&buffer)
}
```
-/
def rewrite_base_tag (base_url : Option String)
    (chunks : List (List HtmlEvent)) (html : List Nat) : String :=
  if html.isEmpty then ""
  else
    let st := runChunks base_url chunks initRewriterState
    if st.already_present = true then utf8DecodeOrEmpty html
    else auto_encode_bytes (outputText st.buffer)

/-- Whether an event fires one of the two end-tag insertion handlers. -/
def isEndEvent : HtmlEvent → Bool
  | HtmlEvent.headEnd _ => true
  | HtmlEvent.htmlEnd _ => true
  | _ => false

/-- The single-insertion invariant: `already_present` is only ever set
together with `base_tag_inserted`, and the buffer holds exactly one inserted
piece when an insertion (not an already-present detection) has happened,
none otherwise. -/
def RewriterInv (st : RewriterState) : Prop :=
  (st.already_present = true → st.base_tag_inserted = true)
  ∧ insertedCount st =
      (if st.base_tag_inserted = true ∧ st.already_present = false then 1 else 0)

/-! ## Theorems -/

/-- Two strings with the same character data are equal. -/
theorem stringDataInj {s t : String} (h : s.data = t.data) : s = t := by
  cases s; cases t; exact congrArg String.mk h

/-- Splitting at a separator absent from both prefixes is unique. -/
theorem splitAtSep_unique {xs ys rest₁ rest₂ : List Char}
    (hx : ':' ∉ xs) (hy : ':' ∉ ys)
    (h : xs ++ ':' :: rest₁ = ys ++ ':' :: rest₂) :
    xs = ys ∧ rest₁ = rest₂ := by
  induction xs generalizing ys with
  | nil =>
    cases ys with
    | nil => simpa using h
    | cons y ys' =>
      simp only [List.nil_append, List.cons_append, List.cons.injEq] at h
      exact absurd (h.1 ▸ List.mem_cons_self y ys') (fun hm => hy (h.1 ▸ hm))
  | cons x xs' ih =>
    cases ys with
    | nil =>
      simp only [List.cons_append, List.nil_append, List.cons.injEq] at h
      exact absurd (h.1 ▸ List.mem_cons_self x xs') (fun hm => hx (h.1 ▸ hm))
    | cons y ys' =>
      simp only [List.cons_append, List.cons.injEq] at h
      obtain ⟨rfl, h2⟩ := h
      have := ih (fun hm => hx (List.mem_cons_of_mem _ hm))
        (fun hm => hy (List.mem_cons_of_mem _ hm)) h2
      exact ⟨by rw [this.1], this.2⟩

/-- Character data of a no-auth cache key. -/
theorem create_cache_key_raw_data_none (u : String) (m : Option String) :
    (create_cache_key_raw u m none).data =
      (defaultedMethod m).data ++ ':' :: u.data := by
  simp [create_cache_key_raw, defaultedMethod, String.data_append]

/-- Character data of a with-auth cache key. -/
theorem create_cache_key_raw_data_some (u : String) (m : Option String) (a : String) :
    (create_cache_key_raw u m (some a)).data =
      (defaultedMethod m).data ++ ':' :: (u.data ++ ':' :: a.data) := by
  simp [create_cache_key_raw, defaultedMethod, String.data_append]

/-- Omitting auth never collides with an empty-string auth for the same
uri and method: the empty-auth key carries one extra `:`. -/
theorem create_cache_key_raw_none_ne_empty (u : String) (m : Option String) :
    create_cache_key_raw u m none ≠ create_cache_key_raw u m (some "") := by
  intro h
  have hd := congrArg String.data h
  rw [create_cache_key_raw_data_none, create_cache_key_raw_data_some] at hd
  have h1 : u.data = u.data ++ ':' :: ("" : String).data :=
    List.cons_injective.eq_iff.mp (List.append_cancel_left hd)
  have := congrArg List.length h1
  simp at this

/-- Injectivity of `create_cache_key_raw` over
`(uri, defaulted method, auth)` for colon-free methods and uris. -/
theorem create_cache_key_raw_injective
    (u₁ u₂ : String) (m₁ m₂ : Option String) (a₁ a₂ : Option String)
    (hm₁ : ':' ∉ (defaultedMethod m₁).data) (hm₂ : ':' ∉ (defaultedMethod m₂).data)
    (hu₁ : ':' ∉ u₁.data) (hu₂ : ':' ∉ u₂.data)
    (h : create_cache_key_raw u₁ m₁ a₁ = create_cache_key_raw u₂ m₂ a₂) :
    defaultedMethod m₁ = defaultedMethod m₂ ∧ u₁ = u₂ ∧ a₁ = a₂ := by
  have hd := congrArg String.data h
  match a₁, a₂ with
  | none, none =>
    rw [create_cache_key_raw_data_none, create_cache_key_raw_data_none] at hd
    obtain ⟨hmeq, hueq⟩ := splitAtSep_unique hm₁ hm₂ hd
    exact ⟨stringDataInj hmeq, stringDataInj hueq, rfl⟩
  | none, some b =>
    rw [create_cache_key_raw_data_none, create_cache_key_raw_data_some] at hd
    obtain ⟨-, hueq⟩ := splitAtSep_unique hm₁ hm₂ hd
    exact absurd (hueq ▸ List.mem_append_right u₂.data (List.mem_cons_self ':' b.data)) hu₁
  | some b, none =>
    rw [create_cache_key_raw_data_some, create_cache_key_raw_data_none] at hd
    obtain ⟨-, hueq⟩ := splitAtSep_unique hm₁ hm₂ hd
    exact absurd
      (hueq ▸ List.mem_append_right u₁.data (List.mem_cons_self ':' b.data)) hu₂
  | some b₁, some b₂ =>
    rw [create_cache_key_raw_data_some, create_cache_key_raw_data_some] at hd
    obtain ⟨hmeq, hrest⟩ := splitAtSep_unique hm₁ hm₂ hd
    obtain ⟨hueq, haeq⟩ := splitAtSep_unique hu₁ hu₂ hrest
    exact ⟨stringDataInj hmeq, stringDataInj hueq, by rw [stringDataInj haeq]⟩

/--
**C2** (counterexample). The claim "any call differing in at least one
component produces a different key" is false on the code: the key is built
by colon-joining, so a colon inside the uri can be reparsed as the auth
separator (`("a:b", none, none)` and `("a", none, some "b")` both give
`"GET:a:b"`), and an absent method collides with an explicit `"GET"` method.
-/
theorem claim_C2_counterexample :
    create_cache_key_raw "a:b" none none = create_cache_key_raw "a" none (some "b")
    ∧ create_cache_key_raw "u" none none = create_cache_key_raw "u" (some "GET") none
    ∧ ("a:b" ≠ "a" ∧ (none : Option String) ≠ some "b") := by
  refine ⟨rfl, rfl, by decide, by decide⟩

/--
**C2** (amended). `create_cache_key_raw` is deterministic; omitting auth
never collides with an empty-string auth for the same uri and method; and
the key determines the triple `(uri, method, auth)` — with the method taken
after its default-to-`"GET"` step — provided the defaulted methods and the
uris contain no `':'` character. (The colon-freedom proviso and the
defaulted-method reading are forced by the counterexample.)
-/
theorem claim_C2_cache_key_deterministic_injective :
    (∀ u m a, create_cache_key_raw u m a = create_cache_key_raw u m a)
    ∧ (∀ u m, create_cache_key_raw u m none ≠ create_cache_key_raw u m (some ""))
    ∧ (∀ u₁ u₂ : String, ∀ m₁ m₂ a₁ a₂ : Option String,
        ':' ∉ (defaultedMethod m₁).data → ':' ∉ (defaultedMethod m₂).data →
        ':' ∉ u₁.data → ':' ∉ u₂.data →
        create_cache_key_raw u₁ m₁ a₁ = create_cache_key_raw u₂ m₂ a₂ →
        defaultedMethod m₁ = defaultedMethod m₂ ∧ u₁ = u₂ ∧ a₁ = a₂) :=
  ⟨fun _ _ _ => rfl, create_cache_key_raw_none_ne_empty,
   fun u₁ u₂ m₁ m₂ a₁ a₂ hm₁ hm₂ hu₁ hu₂ h =>
     create_cache_key_raw_injective u₁ u₂ m₁ m₂ a₁ a₂ hm₁ hm₂ hu₁ hu₂ h⟩

/-- **C2** witness: the amended theorem applied at concrete inputs. -/
theorem claim_C2_witness :
    create_cache_key_raw "https://e.com/p" none none
      ≠ create_cache_key_raw "https://e.com/p" none (some "")
    ∧ (defaultedMethod (some "POST") = defaultedMethod (some "POST")
        ∧ "u" = "u" ∧ (some "tok" : Option String) = some "tok") :=
  ⟨claim_C2_cache_key_deterministic_injective.2.1 "https://e.com/p" none,
   claim_C2_cache_key_deterministic_injective.2.2 "u" "u" (some "POST") (some "POST")
     (some "tok") (some "tok") (by decide) (by decide) (by decide) (by decide) rfl⟩

/--
**C7**. `get_cached_url` returns `some body` iff the bounded store lookup
completes (`store key ≠ none`), finds an entry, and that entry's policy is
not stale at the current clock; on timeout, store error, store miss, or a
stale policy it returns `none`, never propagating the store error.
-/
theorem claim_C7_get_cached_url_miss_semantics
    (store : String → Option (Except String (Option (HttpResponse × CachePolicy))))
    (target_url : String) (auth_opt : Option String) (now : Nat) :
    (∀ b, get_cached_url store target_url auth_opt now = some b ↔
      ∃ resp policy,
        store (create_cache_key_raw target_url none auth_opt)
          = some (Except.ok (some (resp, policy)))
        ∧ policy.is_stale now = false ∧ b = resp.body)
    ∧ (store (create_cache_key_raw target_url none auth_opt) = none →
        get_cached_url store target_url auth_opt now = none)
    ∧ (∀ e, store (create_cache_key_raw target_url none auth_opt)
          = some (Except.error e) →
        get_cached_url store target_url auth_opt now = none)
    ∧ (store (create_cache_key_raw target_url none auth_opt)
          = some (Except.ok none) →
        get_cached_url store target_url auth_opt now = none)
    ∧ (∀ resp policy,
        store (create_cache_key_raw target_url none auth_opt)
          = some (Except.ok (some (resp, policy))) →
        policy.is_stale now = true →
        get_cached_url store target_url auth_opt now = none) := by
  refine ⟨fun b => ?_, fun h => ?_, fun e h => ?_, fun h => ?_, fun resp policy h hs => ?_⟩
  · constructor
    · intro h
      simp only [get_cached_url] at h
      split at h
      · next resp policy heq =>
        split at h
        · next hns =>
          exact ⟨resp, policy, heq, by simpa using hns, by simpa using h.symm⟩
        · exact absurd h (by simp)
      · exact absurd h (by simp)
    · rintro ⟨resp, policy, hstore, hfresh, rfl⟩
      simp only [get_cached_url]
      rw [hstore]
      simp [hfresh]
  · simp only [get_cached_url]; rw [h]
  · simp only [get_cached_url]; rw [h]
  · simp only [get_cached_url]; rw [h]
  · simp only [get_cached_url]; rw [h]; simp [hs]

/-- **C7** witness: concrete store outcomes exercising the theorem — a fresh
hit returns the body; a stale hit, a miss, an error and a timeout return
`none`. -/
theorem claim_C7_witness :
    get_cached_url
      (fun _ => some (Except.ok (some
        ({ body := [104, 105], headers := [], status := 200,
           url := { urlString := "https://e.com/", host := some "e.com" },
           version := HttpVersion.Http11 },
         { is_stale := fun t => decide (100 ≤ t) }))))
      "https://e.com/" none 5 = some [104, 105]
    ∧ get_cached_url
      (fun _ => some (Except.ok (some
        ({ body := [104, 105], headers := [], status := 200,
           url := { urlString := "https://e.com/", host := some "e.com" },
           version := HttpVersion.Http11 },
         { is_stale := fun t => decide (100 ≤ t) }))))
      "https://e.com/" none 200 = none
    ∧ get_cached_url (fun _ => none) "https://e.com/" none 5 = none
    ∧ get_cached_url (fun _ => some (Except.error "io")) "https://e.com/" none 5 = none
    ∧ get_cached_url (fun _ => some (Except.ok none)) "https://e.com/" none 5 = none := by
  refine ⟨((claim_C7_get_cached_url_miss_semantics _ "https://e.com/" none 5).1 _).mpr
      ⟨_, _, rfl, by decide, rfl⟩,
    (claim_C7_get_cached_url_miss_semantics _ "https://e.com/" none 200).2.2.2.2 _ _
      rfl (by decide),
    (claim_C7_get_cached_url_miss_semantics _ "https://e.com/" none 5).2.1 rfl,
    (claim_C7_get_cached_url_miss_semantics _ "https://e.com/" none 5).2.2.1 "io" rfl,
    (claim_C7_get_cached_url_miss_semantics _ "https://e.com/" none 5).2.2.2.1 rfl⟩

/-- The break fires only after 1002 processed entries: the loop never looks
past entry `1002 - index` of its remaining input. -/
theorem convertHeadersGo_take (pn pv : String → Option String)
    (l : List (String × String)) :
    ∀ (i : Nat) (m : List (String × String)), i ≤ 1001 →
      convertHeadersGo pn pv i l m = convertHeadersGo pn pv i (l.take (1002 - i)) m := by
  induction l with
  | nil => intro i m _; simp
  | cons e rest ih =>
    intro i m hi
    obtain ⟨k, v⟩ := e
    have htake : ((k, v) :: rest).take (1002 - i) = (k, v) :: rest.take (1001 - i) := by
      have : 1002 - i = (1001 - i) + 1 := by omega
      rw [this, List.take_succ_cons]
    rw [htake]
    by_cases hbreak : i > 1000
    · simp only [convertHeadersGo, if_pos hbreak]
    · simp only [convertHeadersGo, if_neg hbreak]
      have h1 : 1001 - i = 1002 - (i + 1) := by omega
      rw [h1]
      exact ih (i + 1) _ (by omega)

/-- `convert_headers` only ever processes the first 1002 entries. -/
theorem convert_headers_take (pn pv : String → Option String)
    (l : List (String × String)) :
    convert_headers pn pv l = convert_headers pn pv (l.take 1002) := by
  unfold convert_headers
  exact convertHeadersGo_take pn pv l 0 [] (by omega)

/-- On inputs short enough that the break cannot fire, the loop is the plain
fold. -/
theorem convertHeadersGo_eq_fold (pn pv : String → Option String)
    (l : List (String × String)) :
    ∀ (i : Nat) (m : List (String × String)), i + l.length ≤ 1002 →
      convertHeadersGo pn pv i l m = convertHeadersFold pn pv l m := by
  induction l with
  | nil => intro i m _; simp [convertHeadersGo, convertHeadersFold]
  | cons e rest ih =>
    intro i m hlen
    obtain ⟨k, v⟩ := e
    simp only [convertHeadersGo, convertHeadersFold, List.foldl_cons]
    by_cases hbreak : i > 1000
    · have : rest = [] := by
        cases rest with
        | nil => rfl
        | cons r rs => simp [List.length_cons] at hlen; omega
      subst this
      simp only [if_pos hbreak, convertHeadersFold, List.foldl_nil]
    · simp only [if_neg hbreak]
      have := ih (i + 1) (match pv v with
        | some head => match pn k with
          | some key => insertHeader m key head
          | none => m
        | none => m) (by simp [List.length_cons] at hlen; omega)
      simpa [convertHeadersFold] using this

/-- A malformed entry is dropped individually: removing it from the input
leaves the fold unchanged. -/
theorem convertHeadersFold_malformed (pn pv : String → Option String)
    (xs ys : List (String × String)) (k v : String)
    (hbad : pv v = none ∨ pn k = none) (m : List (String × String)) :
    convertHeadersFold pn pv (xs ++ (k, v) :: ys) m
      = convertHeadersFold pn pv (xs ++ ys) m := by
  unfold convertHeadersFold
  rw [List.foldl_append, List.foldl_append, List.foldl_cons]
  congr 1
  rcases hbad with h | h
  · simp [h]
  · cases hpv : pv v <;> simp [h, hpv]

/-- Every entry of `insertHeader m k v` is `(k, v)` itself or one of `m`. -/
theorem mem_insertHeader {m : List (String × String)} {k v : String}
    {x : String × String} (h : x ∈ insertHeader m k v) :
    x = (k, v) ∨ x ∈ m := by
  unfold insertHeader at h
  split at h
  · obtain ⟨p, hp, hfx⟩ := List.mem_map.mp h
    by_cases hk : p.1 == k
    · left; rw [← hfx]; simp [hk]
    · right; rw [← hfx]; simpa [hk] using hp
  · rcases List.mem_append.mp h with h | h
    · right; exact h
    · left; simpa using h

/-- Every key in the output of the conversion loop comes from the accumulator
or from a parsed input name. -/
theorem mem_convertHeadersGo (pn pv : String → Option String)
    (l : List (String × String)) :
    ∀ (i : Nat) (m : List (String × String)) (x : String × String),
      x ∈ convertHeadersGo pn pv i l m →
      x ∈ m ∨ ∃ k v, (k, v) ∈ l ∧ pn k = some x.1 := by
  induction l with
  | nil => intro i m x h; exact Or.inl h
  | cons e rest ih =>
    intro i m x h
    obtain ⟨k, v⟩ := e
    simp only [convertHeadersGo] at h
    have hstep : ∀ m' : List (String × String),
        (m' = match pv v with
          | some head => match pn k with
            | some key => insertHeader m key head
            | none => m
          | none => m) →
        x ∈ m' → x ∈ m ∨ ∃ k' v', (k', v') ∈ (k, v) :: rest ∧ pn k' = some x.1 := by
      intro m' hm' hx
      cases hpv : pv v with
      | none => rw [hm', hpv] at hx; exact Or.inl hx
      | some head =>
        cases hpn : pn k with
        | none => rw [hm', hpv, hpn] at hx; exact Or.inl hx
        | some key =>
          rw [hm', hpv, hpn] at hx
          rcases mem_insertHeader hx with hx | hx
          · exact Or.inr ⟨k, v, List.mem_cons_self _ _, by rw [hpn, hx]⟩
          · exact Or.inl hx
    split at h
    · exact hstep _ rfl h
    · rcases ih _ _ _ h with hx | ⟨k', v', hmem, hpn⟩
      · exact hstep _ rfl hx
      · exact Or.inr ⟨k', v', List.mem_cons_of_mem _ hmem, hpn⟩

/-- Distinct indices give distinct header names. -/
theorem natKey_inj {i j : Nat} (h : natKey i = natKey j) : i = j := by
  have := congrArg (fun s => s.data.length) h
  simpa [natKey] using this

/--
**C6** (counterexample). The claim that conversion "gives up only after a
bounded number (1000) of malformed entries; in particular, well-formed
entries are not lost merely because the input map is large" is false on the
code: the break `if index > 1000 { break; }` counts *all* entries, so a map
of 1003 entries that are all well-formed (parser = `some`, accepting
everything) still loses its entry at iteration position 1002.
-/
theorem claim_C6_counterexample :
    (natKey 1002, "v") ∈ bigHeaderList
    ∧ (natKey 1002, "v") ∉ convert_headers some some bigHeaderList := by
  constructor
  · exact List.mem_map.mpr ⟨1002, List.mem_range.mpr (by omega), rfl⟩
  · intro h
    rw [convert_headers_take] at h
    rcases mem_convertHeadersGo some some _ 0 [] _ h with hx | ⟨k, v, hmem, hpn⟩
    · simp at hx
    · have hk : k = natKey 1002 := by simpa using hpn
      subst hk
      have hbig : bigHeaderList.take 1002 = (List.range 1002).map
          (fun i => (natKey i, ("v" : String))) := by
        unfold bigHeaderList
        rw [← List.map_take, List.take_range]
        norm_num
      rw [hbig] at hmem
      obtain ⟨i, hi, heq⟩ := List.mem_map.mp hmem
      have hkey : natKey i = natKey 1002 := (Prod.mk.injEq _ _ _ _).mp heq |>.1
      have hlt : i < 1002 := List.mem_range.mp hi
      have := natKey_inj hkey
      omega

/--
**C6** (amended). `convert_headers` drops each malformed name/value pair
individually without aborting the whole conversion, but it gives up after
1002 *total* entries (the break `index > 1000` counts every entry, malformed
or not), so well-formed entries past iteration position 1001 are lost when
the input map is large.
-/
theorem claim_C6_convert_headers_bounded :
    (∀ (pn pv : String → Option String) (l : List (String × String)),
      convert_headers pn pv l = convert_headers pn pv (l.take 1002))
    ∧ (∀ (pn pv : String → Option String) (xs ys : List (String × String))
        (k v : String),
        pv v = none ∨ pn k = none → xs.length + ys.length ≤ 1001 →
        convert_headers pn pv (xs ++ (k, v) :: ys)
          = convert_headers pn pv (xs ++ ys)) := by
  refine ⟨convert_headers_take, fun pn pv xs ys k v hbad hlen => ?_⟩
  unfold convert_headers
  rw [convertHeadersGo_eq_fold pn pv _ 0 [] (by simp [List.length_append]; omega),
    convertHeadersGo_eq_fold pn pv _ 0 [] (by simp [List.length_append]; omega)]
  exact convertHeadersFold_malformed pn pv xs ys k v hbad []

/-- **C6** witness: a malformed middle entry (rejected by the value parser)
is dropped while the surrounding well-formed entries survive. -/
theorem claim_C6_witness :
    convert_headers some (fun s => if s = "" then none else some s)
        ([("a", "1")] ++ ("b", "") :: [("c", "2")])
      = convert_headers some (fun s => if s = "" then none else some s)
        ([("a", "1")] ++ [("c", "2")])
    ∧ convert_headers some (fun s => if s = "" then none else some s)
        ([("a", "1")] ++ [("c", "2")]) = [("a", "1"), ("c", "2")] :=
  ⟨claim_C6_convert_headers_bounded.2 some _ [("a", "1")] [("c", "2")] "b" ""
      (Or.inl (by decide)) (by decide),
   by decide⟩

/--
**C1** (code bug evidence). The claim — the request side of the synthetic
`CachePolicy` pair carries the supplied request headers and the response
side carries the record's response headers — is contradicted by the code:
`put_hybrid_cache` passes `convert_headers(&http_response.headers)` (the
record's *response* headers) to `HttpRequestLike.headers` and
`convert_headers(&http_request_headers)` (the supplied *request* headers)
to `HttpResponseLike.headers`, i.e. the two header sets are swapped. At a
record with response headers `[("x-resp", "1")]` and request headers
`[("x-req", "2")]`, the policy's request side holds `[("x-resp", "1")]`.
(The sibling `seed_payload_into_local_cache` in src/cache/remote.rs, which
"mirrors the logic in `put_hybrid_cache`", assigns them unswapped.)
-/
theorem claim_C1_put_hybrid_cache_header_swap :
    (put_hybrid_cache some some some some "k"
        { body := [1], headers := [("x-resp", "1")], status := 200,
          url := { urlString := "https://e.com/", host := some "e.com" },
          version := HttpVersion.Http11 }
        "GET" [("x-req", "2")]).map
      (fun e => (e.policy.request.headers, e.policy.response.headers))
      = some ([("x-resp", "1")], [("x-req", "2")])
    ∧ [("x-resp", "1")] ≠ [("x-req", "2")] := by
  exact ⟨by decide, by decide⟩

/--
**C3** (counterexample). The claim — a second job with an in-flight cache
key is dropped, so two same-key jobs enqueued before the first completes
yield exactly one remote push attempt — is false on the code: the worker
loop awaits each push attempt inline before receiving the next job and
removes the key from the in-flight set in the same iteration, so the second
job is received with an empty in-flight set and two same-key jobs yield two
push attempts.
-/
theorem claim_C3_counterexample :
    init_inner_loop [mkJob "k", mkJob "k"] [] = ["k", "k"]
    ∧ (["k", "k"] : List String).length ≠ 1 := by
  exact ⟨by decide, by decide⟩

/--
**C3** (amended). The worker loop is strictly sequential: each iteration
inserts the received job's key, completes (or times out) its push attempt
and removes the key again before the next receive, so the in-flight set is
empty at every receive, the dedup check never fires, and every enqueued job
— duplicates included — gets its own push attempt, in arrival order.
-/
theorem claim_C3_worker_pushes_every_job (jobs : List DumpJob) :
    init_inner_loop jobs [] = jobs.map DumpJob.cache_key := by
  induction jobs with
  | nil => rfl
  | cons job rest ih =>
    have h : job.cache_key ∉ ([] : List String) := List.not_mem_nil _
    simp only [init_inner_loop, if_neg h, List.erase_cons_head, List.map_cons]
    rw [ih]

/-- Decoding inverts encoding on each alphabet sextet. -/
theorem b64DecodeChar_encode : ∀ n, n < 64 → b64DecodeChar (b64EncodeSextet n) = some n := by
  decide

/-- Alphabet characters are never the padding character. -/
theorem b64EncodeSextet_ne_pad : ∀ n, n < 64 → b64EncodeSextet n ≠ '=' := by
  decide

/-- Round trip of the charwise base64 coder on byte lists. -/
theorem base64DecodeChars_encodeChars :
    ∀ bytes : List Nat, (∀ b ∈ bytes, b < 256) →
      base64DecodeChars (base64EncodeChars bytes) = some bytes
  | [], _ => rfl
  | [a], h => by
    have ha : a < 256 := h a (List.mem_singleton_self a)
    have h0 : a / 4 < 64 := by omega
    have h1 : a % 4 * 16 < 64 := by omega
    simp only [base64EncodeChars, base64DecodeChars,
      b64DecodeChar_encode _ h0, b64DecodeChar_encode _ h1]
    have hz : a % 4 * 16 % 16 = 0 := by omega
    simp [hz]
    omega
  | [a, b], h => by
    have ha : a < 256 := h a (by simp)
    have hb : b < 256 := h b (by simp)
    have h0 : a / 4 < 64 := by omega
    have h1 : a % 4 * 16 + b / 16 < 64 := by omega
    have h2 : b % 16 * 4 < 64 := by omega
    simp only [base64EncodeChars, base64DecodeChars,
      b64DecodeChar_encode _ h0, b64DecodeChar_encode _ h1,
      b64DecodeChar_encode _ h2]
    rw [if_neg (b64EncodeSextet_ne_pad _ h2)]
    have hz : b % 16 * 4 % 4 = 0 := by omega
    have e1 : a / 4 * 4 + (a % 4 * 16 + b / 16) / 16 = a := by omega
    simp [hz, e1]
    omega
  | a :: b :: c :: rest, h => by
    have ha : a < 256 := h a (by simp)
    have hb : b < 256 := h b (by simp)
    have hc : c < 256 := h c (by simp)
    have h0 : a / 4 < 64 := by omega
    have h1 : a % 4 * 16 + b / 16 < 64 := by omega
    have h2 : b % 16 * 4 + c / 64 < 64 := by omega
    have h3 : c % 64 < 64 := by omega
    have ih := base64DecodeChars_encodeChars rest
      (fun x hx => h x (by simp [hx]))
    simp only [base64EncodeChars, base64DecodeChars,
      b64DecodeChar_encode _ h0, b64DecodeChar_encode _ h1,
      b64DecodeChar_encode _ h2, b64DecodeChar_encode _ h3]
    rw [if_neg (b64EncodeSextet_ne_pad _ h2), if_neg (b64EncodeSextet_ne_pad _ h3)]
    rw [ih]
    have e1 : a / 4 * 4 + (a % 4 * 16 + b / 16) / 16 = a := by omega
    have e2 : (a % 4 * 16 + b / 16) % 16 * 16 + (b % 16 * 4 + c / 64) / 4 = b := by
      omega
    have e3 : (b % 16 * 4 + c / 64) % 4 * 64 + c % 64 = c := by omega
    simp [e1, e2, e3]

/-- Round trip of the string-level base64 coder. -/
theorem base64Decode_encode (bytes : List Nat) (h : ∀ b ∈ bytes, b < 256) :
    base64Decode (base64Encode bytes) = some bytes :=
  base64DecodeChars_encodeChars bytes h

/--
**C8**. Round-trip: for every body byte sequence, the base64 encoding done
by the push path (`dump_to_remote_cache`) followed by the base64 decoding
done by the pull path (`seed_payload_into_local_cache`) yields the body
byte-for-byte.
-/
theorem claim_C8_body_roundtrip (cache_key : String) (http_response : HttpResponse)
    (method : String) (http_request_headers : List (String × String))
    (hbytes : ∀ b ∈ http_response.body, b < 256) :
    seedDecodeBody (dumpPayload cache_key http_response method http_request_headers)
      = Except.ok http_response.body := by
  unfold seedDecodeBody dumpPayload
  rw [base64Decode_encode http_response.body hbytes]

/-- **C8** witness: the round trip at a concrete three-byte body (and the
concrete encoded form, for the record). -/
theorem claim_C8_witness :
    seedDecodeBody (dumpPayload "k"
        { body := [0, 255, 100], headers := [], status := 200,
          url := { urlString := "https://e.com/", host := some "e.com" },
          version := HttpVersion.Http11 }
        "GET" [])
      = Except.ok [0, 255, 100] :=
  claim_C8_body_roundtrip "k"
    { body := [0, 255, 100], headers := [], status := 200,
      url := { urlString := "https://e.com/", host := some "e.com" },
      version := HttpVersion.Http11 }
    "GET" [] (by decide)

/--
**C9** (counterexample). The claim that "any other non-empty string is used
as the override base URL" is false on the code: the override is first passed
through `str::trim_ascii`, so the non-empty override `"http://x "` is not
used as given — the push goes to `http://x/cache/index`, not
`http://x /cache/index`.
-/
theorem claim_C9_counterexample :
    dump_to_remote_cache_base HYBRID_CACHE_ENDPOINT_default (some "http://x ")
      = "http://x"
    ∧ "http://x" ≠ "http://x "
    ∧ dump_to_remote_cache_endpoint HYBRID_CACHE_ENDPOINT_default (some "http://x ")
      = "http://x/cache/index" := by
  refine ⟨by decide, by decide, by decide⟩

/--
**C9** (amended). Push and pull resolve the remote base URL identically: an
absent override and the literal `"true"` both select the configured default
endpoint, and any other string is used as the override base URL *after
ASCII-whitespace trimming*; push targets `{base}/cache/index` and pull
targets `{base}/cache/site/{key}` with the key derived by
`create_cache_key_raw`.
-/
theorem claim_C9_endpoint_resolution :
    (∀ e, dump_to_remote_cache_base e none = e)
    ∧ (∀ e, dump_to_remote_cache_base e (some "true") = e)
    ∧ (∀ e r, r ≠ "true" →
        dump_to_remote_cache_base e (some r) = trim_ascii r)
    ∧ (∀ e d, dump_to_remote_cache_base e d = get_cache_site_base e d)
    ∧ (∀ e d, dump_to_remote_cache_endpoint e d
        = dump_to_remote_cache_base e d ++ "/cache/index")
    ∧ (∀ e t a r, get_cache_site_endpoint e t a r
        = get_cache_site_base e r ++ "/cache/site/"
            ++ create_cache_key_raw t none a) := by
  refine ⟨fun e => rfl, fun e => by simp [dump_to_remote_cache_base],
    fun e r h => by simp [dump_to_remote_cache_base, h],
    fun e d => ?_, fun e d => rfl, fun e t a r => rfl⟩
  cases d with
  | none => rfl
  | some r => rfl

/-- **C9** witness: the amended theorem applied at concrete inputs. -/
theorem claim_C9_witness :
    dump_to_remote_cache_base HYBRID_CACHE_ENDPOINT_default none
      = HYBRID_CACHE_ENDPOINT_default
    ∧ dump_to_remote_cache_base HYBRID_CACHE_ENDPOINT_default (some "true")
      = HYBRID_CACHE_ENDPOINT_default
    ∧ dump_to_remote_cache_base HYBRID_CACHE_ENDPOINT_default (some "http://r:9/")
      = trim_ascii "http://r:9/"
    ∧ dump_to_remote_cache_base HYBRID_CACHE_ENDPOINT_default (some "http://r:9/")
      = get_cache_site_base HYBRID_CACHE_ENDPOINT_default (some "http://r:9/") :=
  ⟨claim_C9_endpoint_resolution.1 HYBRID_CACHE_ENDPOINT_default,
   claim_C9_endpoint_resolution.2.1 HYBRID_CACHE_ENDPOINT_default,
   claim_C9_endpoint_resolution.2.2.1 HYBRID_CACHE_ENDPOINT_default "http://r:9/"
     (by decide),
   claim_C9_endpoint_resolution.2.2.2.1 HYBRID_CACHE_ENDPOINT_default
     (some "http://r:9/")⟩

/-- The initial state satisfies the invariant. -/
theorem rewriterInv_init : RewriterInv initRewriterState := by
  constructor <;> simp [initRewriterState, insertedCount]

/-- Appending a source piece leaves the inserted count unchanged. -/
theorem insertedCount_append_src (st : RewriterState) (b : Bool) (b' : Bool)
    (t : String) :
    insertedCount
      { base_tag_inserted := b, already_present := b',
        buffer := st.buffer ++ [OutputPiece.src t] } = insertedCount st := by
  simp [insertedCount, List.filter_append, OutputPiece.isInserted]

/-- Appending an inserted piece and the closing source piece adds one to the
inserted count. -/
theorem insertedCount_append_inserted (st : RewriterState) (b : Bool) (b' : Bool)
    (f t : String) :
    insertedCount
      { base_tag_inserted := b, already_present := b',
        buffer := st.buffer
          ++ [OutputPiece.inserted f, OutputPiece.src t] }
      = insertedCount st + 1 := by
  simp [insertedCount, List.filter_append, OutputPiece.isInserted]

/-- `stepEvent` preserves the single-insertion invariant. -/
theorem stepEvent_inv (bu : Option String) (st : RewriterState) (ev : HtmlEvent)
    (h : RewriterInv st) : RewriterInv (stepEvent bu st ev) := by
  obtain ⟨h1, h2⟩ := h
  cases ev with
  | baseTag href text =>
    by_cases hins : st.base_tag_inserted = false
    · cases href with
      | some attr =>
        by_cases habs :
            (strStartsWith attr "http://" || strStartsWith attr "https://") = true
        · simp only [stepEvent, if_pos hins, if_pos habs]
          have hc0 : insertedCount st = 0 := by rw [h2]; simp [hins]
          refine ⟨fun _ => rfl, ?_⟩
          rw [insertedCount_append_src, hc0]
          simp
        · simp only [stepEvent, if_pos hins, if_neg habs]
          exact ⟨h1, h2⟩
      | none =>
        simp only [stepEvent, if_pos hins]
        exact ⟨h1, h2⟩
    · simp only [stepEvent, if_neg hins]
      refine ⟨h1, ?_⟩
      rw [insertedCount_append_src, h2]
  | headEnd text =>
    by_cases hins : st.base_tag_inserted = false
    · simp only [stepEvent, if_pos hins]
      have hap : st.already_present = false := by
        cases hst : st.already_present with
        | false => rfl
        | true => exact absurd (h1 hst) (by simp [hins])
      have hc0 : insertedCount st = 0 := by rw [h2]; simp [hins]
      refine ⟨fun _ => rfl, ?_⟩
      rw [insertedCount_append_inserted, hc0]
      simp [hap]
    · simp only [stepEvent, if_neg hins]
      refine ⟨h1, ?_⟩
      rw [insertedCount_append_src, h2]
  | htmlEnd text =>
    by_cases hins : st.base_tag_inserted = false
    · simp only [stepEvent, if_pos hins]
      have hap : st.already_present = false := by
        cases hst : st.already_present with
        | false => rfl
        | true => exact absurd (h1 hst) (by simp [hins])
      have hc0 : insertedCount st = 0 := by rw [h2]; simp [hins]
      refine ⟨fun _ => rfl, ?_⟩
      rw [insertedCount_append_inserted, hc0]
      simp [hap]
    · simp only [stepEvent, if_neg hins]
      refine ⟨h1, ?_⟩
      rw [insertedCount_append_src, h2]
  | other text =>
    simp only [stepEvent]
    refine ⟨h1, ?_⟩
    rw [insertedCount_append_src, h2]

/-- A fold of events preserves the single-insertion invariant. -/
theorem foldl_stepEvent_inv (bu : Option String) (evs : List HtmlEvent) :
    ∀ st : RewriterState, RewriterInv st →
      RewriterInv (evs.foldl (stepEvent bu) st) := by
  induction evs with
  | nil => intro st h; exact h
  | cons e rest ih =>
    intro st h
    exact ih (stepEvent bu st e) (stepEvent_inv bu st e h)

/-- The driver loop is the identity once `already_present` is set. -/
theorem runChunks_of_already_present (bu : Option String)
    (chunks : List (List HtmlEvent)) (st : RewriterState)
    (h : st.already_present = true) : runChunks bu chunks st = st := by
  cases chunks with
  | nil => rfl
  | cons c rest => simp [runChunks, h]

/-- Chunk streams compose. -/
theorem runChunks_append (bu : Option String) (c₁ c₂ : List (List HtmlEvent))
    (st : RewriterState) :
    runChunks bu (c₁ ++ c₂) st = runChunks bu c₂ (runChunks bu c₁ st) := by
  induction c₁ generalizing st with
  | nil => rfl
  | cons c rest ih =>
    by_cases h : st.already_present = true
    · rw [List.cons_append]
      simp only [runChunks, if_pos h]
      exact (runChunks_of_already_present bu c₂ st h).symm
    · rw [List.cons_append]
      simp only [runChunks, if_neg h]
      exact ih _

/-- The driver loop preserves the single-insertion invariant. -/
theorem runChunks_inv (bu : Option String) (chunks : List (List HtmlEvent)) :
    ∀ st : RewriterState, RewriterInv st → RewriterInv (runChunks bu chunks st) := by
  induction chunks with
  | nil => intro st h; exact h
  | cons c rest ih =>
    intro st h
    by_cases hap : st.already_present = true
    · simpa [runChunks, hap] using h
    · simp only [runChunks, if_neg hap]
      exact ih _ (foldl_stepEvent_inv bu c st h)

/-- `base_tag_inserted` is monotone under one event. -/
theorem stepEvent_inserted_mono (bu : Option String) (st : RewriterState)
    (ev : HtmlEvent) (h : st.base_tag_inserted = true) :
    (stepEvent bu st ev).base_tag_inserted = true := by
  have hne : ¬ st.base_tag_inserted = false := by simp [h]
  cases ev with
  | baseTag href text => simp only [stepEvent, if_neg hne]; exact h
  | headEnd text => simp only [stepEvent, if_neg hne]; exact h
  | htmlEnd text => simp only [stepEvent, if_neg hne]; exact h
  | other text => simpa [stepEvent] using h

/-- An end event always leaves `base_tag_inserted` set. -/
theorem stepEvent_end_inserted (bu : Option String) (st : RewriterState)
    (ev : HtmlEvent) (hend : isEndEvent ev = true) :
    (stepEvent bu st ev).base_tag_inserted = true := by
  cases ev with
  | baseTag href text => simp [isEndEvent] at hend
  | other text => simp [isEndEvent] at hend
  | headEnd text =>
    by_cases hins : st.base_tag_inserted = false
    · simp only [stepEvent, if_pos hins]
    · simp only [stepEvent, if_neg hins]
      simpa using hins
  | htmlEnd text =>
    by_cases hins : st.base_tag_inserted = false
    · simp only [stepEvent, if_pos hins]
    · simp only [stepEvent, if_neg hins]
      simpa using hins

/-- `base_tag_inserted` is monotone under a fold of events. -/
theorem foldl_inserted_mono (bu : Option String) (evs : List HtmlEvent) :
    ∀ st : RewriterState, st.base_tag_inserted = true →
      (evs.foldl (stepEvent bu) st).base_tag_inserted = true := by
  induction evs with
  | nil => intro st h; exact h
  | cons e rest ih =>
    intro st h
    exact ih _ (stepEvent_inserted_mono bu st e h)

/-- After folding a chunk containing an end event, `base_tag_inserted` is
set. -/
theorem foldl_inserted_of_end_mem (bu : Option String) (evs : List HtmlEvent)
    (ev : HtmlEvent) (hmem : ev ∈ evs) (hend : isEndEvent ev = true) :
    ∀ st : RewriterState, (evs.foldl (stepEvent bu) st).base_tag_inserted = true := by
  induction evs with
  | nil => exact absurd hmem (List.not_mem_nil ev)
  | cons e rest ih =>
    intro st
    rcases List.mem_cons.mp hmem with rfl | hmem'
    · exact foldl_inserted_mono bu rest _ (stepEvent_end_inserted bu st ev hend)
    · exact ih hmem' _

/-- `base_tag_inserted` is monotone under the driver loop. -/
theorem runChunks_inserted_mono (bu : Option String)
    (chunks : List (List HtmlEvent)) :
    ∀ st : RewriterState, st.base_tag_inserted = true →
      (runChunks bu chunks st).base_tag_inserted = true := by
  induction chunks with
  | nil => intro st h; exact h
  | cons c rest ih =>
    intro st h
    by_cases hap : st.already_present = true
    · simpa [runChunks, hap] using h
    · simp only [runChunks, if_neg hap]
      exact ih _ (foldl_inserted_mono bu c st h)

/-- If the loop finishes without an already-present detection and some
processed chunk contains an end event, an insertion has happened. -/
theorem runChunks_inserted_of_end (bu : Option String)
    (chunks : List (List HtmlEvent)) :
    ∀ st : RewriterState,
      (runChunks bu chunks st).already_present = false →
      (∃ ev ∈ chunks.flatten, isEndEvent ev = true) →
      (runChunks bu chunks st).base_tag_inserted = true := by
  induction chunks with
  | nil =>
    intro st _ hex
    obtain ⟨ev, hmem, _⟩ := hex
    simp at hmem
  | cons c rest ih =>
    intro st hap hex
    by_cases hst : st.already_present = true
    · rw [runChunks_of_already_present bu _ st hst] at hap
      exact absurd hst (by simp [hap])
    · simp only [runChunks, if_neg hst] at hap ⊢
      obtain ⟨ev, hmem, hend⟩ := hex
      have hm2 : ev ∈ c ++ rest.flatten := by
        simpa [List.flatten_cons] using hmem
      rcases List.mem_append.mp hm2 with hmem' | hmem'
      · exact runChunks_inserted_mono bu rest _
          (foldl_inserted_of_end_mem bu c ev hmem' hend _)
      · exact ih _ hap ⟨ev, hmem', hend⟩

/-- Every piece in the buffer after a step is an old piece, a source piece,
or one of the two insertion fragments. -/
theorem mem_buffer_stepEvent (bu : Option String) (st : RewriterState)
    (ev : HtmlEvent) (p : OutputPiece)
    (h : p ∈ (stepEvent bu st ev).buffer) :
    p ∈ st.buffer ∨ (∃ t, p = OutputPiece.src t)
      ∨ p = OutputPiece.inserted (headBaseFragment bu)
      ∨ p = OutputPiece.inserted (htmlBaseFragment bu) := by
  cases ev with
  | baseTag href text =>
    by_cases hins : st.base_tag_inserted = false
    · cases href with
      | some attr =>
        by_cases habs :
            (strStartsWith attr "http://" || strStartsWith attr "https://") = true
        · simp only [stepEvent, if_pos hins, if_pos habs] at h
          rcases List.mem_append.mp h with h | h
          · exact Or.inl h
          · exact Or.inr (Or.inl ⟨text, by simpa using h⟩)
        · simp only [stepEvent, if_pos hins, if_neg habs] at h
          exact Or.inl h
      | none =>
        simp only [stepEvent, if_pos hins] at h
        exact Or.inl h
    · simp only [stepEvent, if_neg hins] at h
      rcases List.mem_append.mp h with h | h
      · exact Or.inl h
      · exact Or.inr (Or.inl ⟨text, by simpa using h⟩)
  | headEnd text =>
    by_cases hins : st.base_tag_inserted = false
    · simp only [stepEvent, if_pos hins] at h
      rcases List.mem_append.mp h with h | h
      · exact Or.inl h
      · rcases (by simpa using h : p = OutputPiece.inserted (headBaseFragment bu)
            ∨ p = OutputPiece.src text) with h | h
        · exact Or.inr (Or.inr (Or.inl h))
        · exact Or.inr (Or.inl ⟨text, h⟩)
    · simp only [stepEvent, if_neg hins] at h
      rcases List.mem_append.mp h with h | h
      · exact Or.inl h
      · exact Or.inr (Or.inl ⟨text, by simpa using h⟩)
  | htmlEnd text =>
    by_cases hins : st.base_tag_inserted = false
    · simp only [stepEvent, if_pos hins] at h
      rcases List.mem_append.mp h with h | h
      · exact Or.inl h
      · rcases (by simpa using h : p = OutputPiece.inserted (htmlBaseFragment bu)
            ∨ p = OutputPiece.src text) with h | h
        · exact Or.inr (Or.inr (Or.inr h))
        · exact Or.inr (Or.inl ⟨text, h⟩)
    · simp only [stepEvent, if_neg hins] at h
      rcases List.mem_append.mp h with h | h
      · exact Or.inl h
      · exact Or.inr (Or.inl ⟨text, by simpa using h⟩)
  | other text =>
    simp only [stepEvent] at h
    rcases List.mem_append.mp h with h | h
    · exact Or.inl h
    · exact Or.inr (Or.inl ⟨text, by simpa using h⟩)

/-- Buffer-piece provenance over a fold of events. -/
theorem mem_buffer_foldl (bu : Option String) (evs : List HtmlEvent) :
    ∀ (st : RewriterState) (p : OutputPiece),
      p ∈ (evs.foldl (stepEvent bu) st).buffer →
      p ∈ st.buffer ∨ (∃ t, p = OutputPiece.src t)
        ∨ p = OutputPiece.inserted (headBaseFragment bu)
        ∨ p = OutputPiece.inserted (htmlBaseFragment bu) := by
  induction evs with
  | nil => intro st p h; exact Or.inl h
  | cons e rest ih =>
    intro st p h
    rcases ih _ p h with h' | h'
    · exact mem_buffer_stepEvent bu st e p h'
    · exact Or.inr h'

/-- Buffer-piece provenance over the driver loop. -/
theorem mem_buffer_runChunks (bu : Option String)
    (chunks : List (List HtmlEvent)) :
    ∀ (st : RewriterState) (p : OutputPiece),
      p ∈ (runChunks bu chunks st).buffer →
      p ∈ st.buffer ∨ (∃ t, p = OutputPiece.src t)
        ∨ p = OutputPiece.inserted (headBaseFragment bu)
        ∨ p = OutputPiece.inserted (htmlBaseFragment bu) := by
  induction chunks with
  | nil => intro st p h; exact Or.inl h
  | cons c rest ih =>
    intro st p h
    by_cases hap : st.already_present = true
    · rw [runChunks_of_already_present bu _ st hap] at h
      exact Or.inl h
    · simp only [runChunks, if_neg hap] at h
      rcases ih _ p h with h' | h'
      · exact mem_buffer_foldl bu c st p h'
      · exact Or.inr h'

/-- When the loop ends with `already_present` set, the rewriter returns the
original bytes, strictly-UTF-8 decoded with empty-string fallback. -/
theorem rewrite_base_tag_of_already_present (bu : Option String)
    (chunks : List (List HtmlEvent)) (html : List Nat)
    (hap : (runChunks bu chunks initRewriterState).already_present = true) :
    rewrite_base_tag bu chunks html = utf8DecodeOrEmpty html := by
  unfold rewrite_base_tag
  by_cases hempty : html.isEmpty
  · rw [if_pos hempty]
    have : html = [] := by
      cases html with
      | nil => rfl
      | cons b rest => simp at hempty
    subst this
    rfl
  · rw [if_neg hempty]
    simp only [hap, if_pos]

/--
**C4**. When the rewriter detects an already-present absolute base tag
(an event stream whose processed prefix sets `already_present`), it stops
consuming further chunks — appending any extra chunks leaves the result
unchanged — and returns the original input bytes decoded by the total
fallback decoder `utf8DecodeOrEmpty` (exact text on valid UTF-8, empty
string on invalid encoding, never a failure), so the output equals the
original document modulo that decoding and no second base tag is inserted.
-/
theorem claim_C4_short_circuit_returns_original (bu : Option String)
    (chunks extra : List (List HtmlEvent)) (html : List Nat)
    (hap : (runChunks bu chunks initRewriterState).already_present = true) :
    rewrite_base_tag bu (chunks ++ extra) html = utf8DecodeOrEmpty html
    ∧ rewrite_base_tag bu (chunks ++ extra) html
        = rewrite_base_tag bu chunks html := by
  have hrun : runChunks bu (chunks ++ extra) initRewriterState
      = runChunks bu chunks initRewriterState := by
    rw [runChunks_append]
    exact runChunks_of_already_present bu extra _ hap
  have hap' : (runChunks bu (chunks ++ extra) initRewriterState).already_present
      = true := by rw [hrun]; exact hap
  refine ⟨rewrite_base_tag_of_already_present bu _ html hap', ?_⟩
  rw [rewrite_base_tag_of_already_present bu _ html hap',
    rewrite_base_tag_of_already_present bu chunks html hap]

/-- **C4** witness: a document with an absolute `<base href="https://x/">`
short-circuits; the extra chunk is ignored and the output is the original
document text. -/
theorem claim_C4_witness :
    (runChunks (some "https://y/")
        [[HtmlEvent.baseTag (some "https://x/") "<base href=\"https://x/\">"]]
        initRewriterState).already_present = true
    ∧ rewrite_base_tag (some "https://y/")
        ([[HtmlEvent.baseTag (some "https://x/") "<base href=\"https://x/\">"]]
          ++ [[HtmlEvent.other "<p>z</p>"]])
        (strBytes "<base href=\"https://x/\">")
      = utf8DecodeOrEmpty (strBytes "<base href=\"https://x/\">")
    ∧ utf8DecodeOrEmpty (strBytes "<base href=\"https://x/\">")
      = "<base href=\"https://x/\">" :=
  ⟨by decide,
   (claim_C4_short_circuit_returns_original (some "https://y/")
      [[HtmlEvent.baseTag (some "https://x/") "<base href=\"https://x/\">"]]
      [[HtmlEvent.other "<p>z</p>"]]
      (strBytes "<base href=\"https://x/\">") (by decide)).1,
   by decide⟩

/--
**C5**. The rewriter inserts a base tag at most once: for every base URL and
event stream the output buffer holds at most one inserted piece, however
many head-closing or html-closing events fire; and when the stream contains
at least one such closing event and no already-present absolute base was
detected, it holds exactly one inserted piece (the head-form before a
`</head>`, else the synthesized head block before `</html>` — never both).
-/
theorem claim_C5_insert_at_most_once (bu : Option String)
    (chunks : List (List HtmlEvent)) :
    insertedCount (runChunks bu chunks initRewriterState) ≤ 1
    ∧ ((runChunks bu chunks initRewriterState).already_present = false →
        (∃ ev ∈ chunks.flatten, isEndEvent ev = true) →
        insertedCount (runChunks bu chunks initRewriterState) = 1) := by
  obtain ⟨h1, h2⟩ := runChunks_inv bu chunks initRewriterState rewriterInv_init
  constructor
  · rw [h2]; split <;> omega
  · intro hap hex
    have hins := runChunks_inserted_of_end bu chunks initRewriterState hap hex
    rw [h2, if_pos ⟨hins, hap⟩]

/-- **C5** witness: a document whose head-closing *and* html-closing events
both fire still yields exactly one insertion. -/
theorem claim_C5_witness :
    insertedCount (runChunks (some "https://example.com/")
      [[HtmlEvent.other "<html><head>", HtmlEvent.headEnd "</head>",
        HtmlEvent.other "<body>x</body>", HtmlEvent.htmlEnd "</html>"]]
      initRewriterState) = 1 :=
  (claim_C5_insert_at_most_once (some "https://example.com/")
      [[HtmlEvent.other "<html><head>", HtmlEvent.headEnd "</head>",
        HtmlEvent.other "<body>x</body>", HtmlEvent.htmlEnd "</html>"]]).2
    (by decide) ⟨HtmlEvent.headEnd "</head>", by decide, by decide⟩

/--
**C10** (implicit). With no base URL (`base_url = None`) the rewriter does
not skip insertion: on a document needing insertion it still inserts a base
tag with an empty href — `<base href="">` at a head close, or the
synthesized `<head><base href=""></head>` at an html close — because the
fragments are built from `base_url.unwrap_or_default()`.
-/
theorem claim_C10_empty_href_insertion (chunks : List (List HtmlEvent)) :
    ((runChunks none chunks initRewriterState).already_present = false →
      (∃ ev ∈ chunks.flatten, isEndEvent ev = true) →
      ∃ p ∈ (runChunks none chunks initRewriterState).buffer,
        p = OutputPiece.inserted "<base href=\"\">"
        ∨ p = OutputPiece.inserted "<head><base href=\"\"></head>")
    ∧ headBaseFragment none = "<base href=\"\">"
    ∧ htmlBaseFragment none = "<head><base href=\"\"></head>" := by
  have hfrag1 : headBaseFragment none = "<base href=\"\">" := by decide
  have hfrag2 : htmlBaseFragment none = "<head><base href=\"\"></head>" := by decide
  refine ⟨fun hap hex => ?_, hfrag1, hfrag2⟩
  obtain ⟨h1, h2⟩ := runChunks_inv none chunks initRewriterState rewriterInv_init
  have hins := runChunks_inserted_of_end none chunks initRewriterState hap hex
  have hcount : insertedCount (runChunks none chunks initRewriterState) = 1 := by
    rw [h2, if_pos ⟨hins, hap⟩]
  unfold insertedCount at hcount
  have hne : (runChunks none chunks initRewriterState).buffer.filter
      OutputPiece.isInserted ≠ [] := by
    intro h0
    rw [h0] at hcount
    simp at hcount
  obtain ⟨p, hp⟩ := List.exists_mem_of_ne_nil _ hne
  have hpmem : p ∈ (runChunks none chunks initRewriterState).buffer :=
    List.mem_of_mem_filter hp
  have hpins : OutputPiece.isInserted p = true := List.of_mem_filter hp
  rcases mem_buffer_runChunks none chunks initRewriterState p hpmem
    with h | h | h | h
  · simp [initRewriterState] at h
  · obtain ⟨t, rfl⟩ := h
    simp [OutputPiece.isInserted] at hpins
  · exact ⟨p, hpmem, Or.inl (by rw [h, hfrag1])⟩
  · exact ⟨p, hpmem, Or.inr (by rw [h, hfrag2])⟩

/-- **C10** witness: the headless document `<html><body>x</body></html>`
with no base URL gets `<head><base href=""></head>` inserted before
`</html>` (and the full rewriter output, concretely). -/
theorem claim_C10_witness :
    (∃ p ∈ (runChunks none
        [[HtmlEvent.other "<html><body>x</body>", HtmlEvent.htmlEnd "</html>"]]
        initRewriterState).buffer,
      p = OutputPiece.inserted "<base href=\"\">"
      ∨ p = OutputPiece.inserted "<head><base href=\"\"></head>")
    ∧ rewrite_base_tag none
        [[HtmlEvent.other "<html><body>x</body>", HtmlEvent.htmlEnd "</html>"]]
        (strBytes "<html><body>x</body></html>")
      = "<html><body>x</body><head><base href=\"\"></head></html>" :=
  ⟨(claim_C10_empty_href_insertion
      [[HtmlEvent.other "<html><body>x</body>", HtmlEvent.htmlEnd "</html>"]]).1
    (by decide) ⟨HtmlEvent.htmlEnd "</html>", by decide, by decide⟩,
   by decide⟩

end Chromey
